import Mathlib

/-!
# BEE_CLUBVERSE: the access gateway of `server.js`

A shallow embedding of `src/server.js`: the Express application is the ordered list of
layers built by its `app.use` / `app.get` calls, a request is dispatched through the
layers that match it, and every middleware either passes control on, ends the response,
or fails.  The rate limiter follows the `admit(clientId, now)` rule of the specification
with the constants configured in `server.js`; the session verifier `protect` lives in
`./middlewares/auth.js` and is modelled from the specification.
-/

namespace Clubverse

/-! ## Values handed to views -/

/-- JavaScript values that occur in query strings and in the locals passed to `res.render`. -/
inductive JsValue where
  | undefined
  | null
  | str (s : String)
  | arr (items : List JsValue)
  | obj (fields : List (String × JsValue))

/-- Property lookup on a parsed object: `undefined` when the key is absent. -/
def getProp : List (String × JsValue) → String → JsValue
  | [], _ => JsValue.undefined
  | (k, v) :: rest, key => if k = key then v else getProp rest key

/-! ## Requests -/

/-- HTTP request methods. -/
inductive Method where
  | GET | HEAD | POST | PUT | DELETE | PATCH | OPTIONS
  deriving DecidableEq, Repr

/-- The parts of an inbound request that `server.js` and its gateway look at. -/
structure Request where
  method : Method
  /-- `req.path`: the URL path, without the query string. -/
  path : String
  /-- `req.query` as parsed by Express. -/
  query : List (String × JsValue)
  /-- `req.ip`, the key of the rate limiter. -/
  ip : String
  /-- Arrival time in milliseconds. -/
  now : Nat
  /-- The credential cookie, when the request carries one. -/
  token : Option String
  /-- `req.user`, attached by `protect`. -/
  user : JsValue

/-! ## Middlewares and layers -/

/-- The route handlers defined inline in `server.js`.  `barPage page` and `staticPage page`
are the closures created by the two `forEach` loops, one per value of `page`. -/
inductive HandlerId where
  | login
  | register
  | dashboard
  | bar
  | reserveTable
  | team
  | barPage (page : String)
  | staticPage (page : String)
  deriving DecidableEq, Repr

/-- Every middleware function that `server.js` installs. -/
inductive Mw where
  | morgan
  | helmetCsp
  | cors
  | cookieParser
  | json
  | urlencoded
  | limiter
  | logger
  | inlineLog
  | static
  | apiRoutes
  | protect
  | handler (h : HandlerId)
  | errorHandler
  deriving DecidableEq, Repr

/-- What a request is answered with. -/
inductive Response where
  /-- `res.render(view, locals)`; `locals` is `none` when the call passes no locals. -/
  | render (view : String) (locals : Option (List (String × JsValue)))
  /-- `res.sendFile(path.join(__dirname, ...segments))`. -/
  | sendFile (segments : List String)
  /-- The rate limiter's rejection: status 429 with the configured message. -/
  | tooManyRequests (message : String)
  /-- The rejection of `protect` (redirect to the login entry, or 401). -/
  | unauthenticated
  /-- A response written by one of the imported middlewares. -/
  | external (source : Mw) (body : String)

/-- One entry of the router stack. -/
inductive Layer where
  /-- `app.use(mw)` (`mount = none`) or `app.use(mount, mw)`. -/
  | use (mount : Option String) (mw : Mw)
  /-- `app.use(mw)` with an error-handling middleware. -/
  | useError (mw : Mw)
  /-- `app.get(path, ...stack)`. -/
  | get (path : String) (stack : List Mw)
  deriving DecidableEq, Repr

/-- The Express application object: its settings table and its router stack. -/
structure App where
  settings : List (String × String)
  layers : List Layer
  deriving DecidableEq, Repr

/-- The result of `express()`. -/
def express : App := { settings := [], layers := [] }

/-- `app.set(name, value)`. -/
def App.set (app : App) (name value : String) : App :=
  { app with settings := (name, value) :: app.settings }

/-- `app.use(mw)`. -/
def App.use (app : App) (mw : Mw) : App :=
  { app with layers := app.layers ++ [Layer.use none mw] }

/-- `app.use(mount, mw)`. -/
def App.useAt (app : App) (mount : String) (mw : Mw) : App :=
  { app with layers := app.layers ++ [Layer.use (some mount) mw] }

/-- `app.use(errorHandler)`. -/
def App.useError (app : App) (mw : Mw) : App :=
  { app with layers := app.layers ++ [Layer.useError mw] }

/-- `app.get(path, ...stack)`. -/
def App.get (app : App) (path : String) (stack : List Mw) : App :=
  { app with layers := app.layers ++ [Layer.get path stack] }

/-- `app.enabled(name)`: a setting is enabled only when it was set to a truthy value. -/
def App.enabled (app : App) (name : String) : Bool :=
  match app.settings.lookup name with
  | some v => v == "true"
  | none => false

/-! ## The tables of `server.js` -/

/-- An entry of `chdBars` / `ldhBars`. -/
structure Bar where
  name : String
  image : String
  link : String
  deriving DecidableEq, Repr

def chdBars : List Bar :=
  [ { name := "BREWESTATE", image := "/images/brewestate.png", link := "/api/brewestate" },
    { name := "BOULEVARD", image := "/images/boul.png", link := "/api/boulevard" },
    { name := "KALA-GHODA", image := "/images/kalaghoda.jpg", link := "/api/kalaghoda" },
    { name := "MOBE", image := "/images/mobe.png", link := "/api/mobe" } ]

def ldhBars : List Bar :=
  [ { name := "PAARA - NIGHT CLUB", image := "/images/paara2.jpg", link := "/api/paara" },
    { name := "ROMEO LANE", image := "/images/romeolane.jpg", link := "/api/romeo-ldh" },
    { name := "LUNA - NIGHT CLUB", image := "/images/luna2.avif", link := "/api/luna-ldh" },
    { name := "BAKLAVI - BAR & KITCHEN", image := "/images/baklavi.jpg",
      link := "/api/baklavi-ldh" } ]

def barPages : List String :=
  ["brewestate", "boulevard", "kalaghoda", "mobe", "paara", "romeo-ldh", "luna-ldh",
   "baklavi-ldh"]

def staticPages : List String := ["faq", "ourservices", "contactus"]

def instaImages : List String :=
  ["food.jpg", "drink.jpg", "pizza.jpg", "beerr.avif", "hand.png", "taco.png", "drum.png",
   "wine.png"]

/-- A team member of the `/api/team` page. -/
structure Member where
  name : String
  role : String
  image : String
  deriving DecidableEq, Repr

def team : List Member :=
  [ { name := "Ansh Vohra", role := "Back-End Web Developer", image := "/images/ansh.jpg" },
    { name := "Akhil Handa", role := "Back-End Web Developer", image := "/images/akhil.jpg" },
    { name := "Anmol Singh", role := "Back-End Web Developer", image := "/images/anmol11.jpg" } ]

def Bar.toJs (b : Bar) : JsValue :=
  JsValue.obj [("name", JsValue.str b.name), ("image", JsValue.str b.image),
               ("link", JsValue.str b.link)]

def Member.toJs (m : Member) : JsValue :=
  JsValue.obj [("name", JsValue.str m.name), ("role", JsValue.str m.role),
               ("image", JsValue.str m.image)]

/-! ## The application built by `server.js`, call by call -/

/-- The `barPages.forEach` loop: one protected route per page. -/
def registerBarPages (app : App) : App :=
  barPages.foldl
    (fun a page => a.get ("/api/" ++ page) [Mw.protect, Mw.handler (HandlerId.barPage page)])
    app

/-- The `staticPages.forEach` loop: one unprotected route per page. -/
def registerStaticPages (app : App) : App :=
  staticPages.foldl
    (fun a page => a.get ("/api/" ++ page) [Mw.handler (HandlerId.staticPage page)])
    app

/-- The application after every `app.set`, `app.use` and `app.get` of `server.js`,
in source order. -/
def server : App :=
  let app := express
  let app := app.set "view engine" "ejs"
  let app := app.set "views" "views"
  let app := app.use Mw.morgan
  let app := app.use Mw.helmetCsp
  let app := app.use Mw.cors
  let app := app.use Mw.cookieParser
  let app := app.use Mw.json
  let app := app.use Mw.urlencoded
  let app := app.useAt "/api" Mw.limiter
  let app := app.use Mw.logger
  let app := app.use Mw.inlineLog
  let app := app.use Mw.static
  let app := app.useAt "/api" Mw.apiRoutes
  let app := app.get "/" [Mw.handler HandlerId.login]
  let app := app.get "/register" [Mw.handler HandlerId.register]
  let app := app.get "/api/dashboard" [Mw.protect, Mw.handler HandlerId.dashboard]
  let app := app.get "/api/bar" [Mw.protect, Mw.handler HandlerId.bar]
  let app := app.get "/api/reserve-table" [Mw.protect, Mw.handler HandlerId.reserveTable]
  let app := app.get "/api/team" [Mw.protect, Mw.handler HandlerId.team]
  let app := registerBarPages app
  let app := registerStaticPages app
  app.useError Mw.errorHandler

/-! ## What the inline handlers do -/

/-- The body of each inline route handler, as the response it produces. -/
def runHandler : HandlerId → Request → Response
  | HandlerId.login, req =>
      Response.render "login"
        (some [("error", getProp req.query "error"), ("success", getProp req.query "success")])
  | HandlerId.register, _ =>
      Response.render "register" (some [("error", JsValue.null)])
  | HandlerId.dashboard, req =>
      Response.render "dashboard"
        (some [("instaImages", JsValue.arr (instaImages.map JsValue.str)), ("user", req.user)])
  | HandlerId.bar, req =>
      Response.render "bars"
        (some [("chdBars", JsValue.arr (chdBars.map Bar.toJs)),
               ("ldhBars", JsValue.arr (ldhBars.map Bar.toJs)), ("user", req.user)])
  | HandlerId.reserveTable, _ =>
      Response.sendFile ["views", "reservation.html"]
  | HandlerId.team, req =>
      Response.render "team"
        (some [("team", JsValue.arr (team.map Member.toJs)), ("user", req.user)])
  | HandlerId.barPage page, req =>
      Response.render page (some [("user", req.user)])
  | HandlerId.staticPage page, _ =>
      Response.render page none

/-! ## Route matching

Express compares paths through the router created by the application.  The router folds
letter case unless the setting `case sensitive routing` is enabled, and ignores one
trailing slash unless `strict routing` is enabled.  `server.js` sets only `view engine`
and `views`. -/

/-- The characters of a path as the router compares them. -/
def App.fold (app : App) (s : String) : List Char :=
  if app.enabled "case sensitive routing" then s.data else s.data.map Char.toLower

/-- Drop one trailing slash. -/
def stripSlash (p : List Char) : List Char :=
  if p.getLast? = some '/' then p.dropLast else p

/-- A path as a route layer compares it. -/
def App.trim (app : App) (p : List Char) : List Char :=
  if app.enabled "strict routing" then p else stripSlash p

/-- The comparison form of the path of a route or of a request. -/
def App.routeKey (app : App) (s : String) : List Char := app.trim (app.fold s)

/-- A layer mounted at `m` sees the paths that are `m` itself or continue it with a
slash. -/
def mountMatches (m p : List Char) : Bool :=
  m.isPrefixOf p &&
    (match p.drop m.length with
     | [] => true
     | c :: _ => c == '/')

/-- Routes registered with `app.get` answer GET and HEAD requests. -/
def getLike : Method → Bool
  | Method.GET => true
  | Method.HEAD => true
  | _ => false

/-- Whether a layer takes part in the handling of a request with folded path `p`;
`viaGet` tells whether the request's method is served by `app.get` routes. -/
def Layer.accepts (app : App) (viaGet : Bool) (p : List Char) : Layer → Bool
  | Layer.use none _ => true
  | Layer.use (some mount) _ => mountMatches (app.fold mount) p
  | Layer.useError _ => true
  | Layer.get path _ => viaGet && (app.trim p == app.routeKey path)

/-- Whether a layer takes part in the handling of a request. -/
def Layer.matches (app : App) (req : Request) (l : Layer) : Bool :=
  l.accepts app (getLike req.method) (app.fold req.path)

/-- A middleware of a matching layer; `onError` marks an error-handling middleware. -/
structure Stage where
  mw : Mw
  onError : Bool
  deriving DecidableEq, Repr

/-- An ordinary middleware as a stage. -/
def ordinary (mw : Mw) : Stage := { mw := mw, onError := false }

/-- The middlewares a layer contributes, in order. -/
def Layer.stages : Layer → List Stage
  | Layer.use _ mw => [ordinary mw]
  | Layer.useError mw => [{ mw := mw, onError := true }]
  | Layer.get _ stack => stack.map ordinary

/-- The stages of the layers that accept a method kind and a folded path, in registration
order. -/
def chainFor (app : App) (viaGet : Bool) (p : List Char) : List Stage :=
  app.layers.flatMap (fun l => if l.accepts app viaGet p then l.stages else [])

/-- The middleware chain of a request: the stages of the layers that match it, in
registration order. -/
def chainOf (app : App) (req : Request) : List Stage :=
  chainFor app (getLike req.method) (app.fold req.path)

/-! ## Dispatch -/

/-- How the execution of one middleware ended. -/
inductive Outcome where
  /-- It called `next()`. -/
  | passed
  /-- It ended the response. -/
  | responded
  /-- It threw, or called `next(err)`. -/
  | failed
  deriving DecidableEq, Repr

/-- The effect of executing one middleware on the shared state `σ` and on the request. -/
inductive Step (σ : Type) where
  | next (s : σ) (req : Request)
  | respond (s : σ) (r : Response)
  | fail (s : σ) (req : Request)

/-- Whether the dispatcher is looking for ordinary middlewares or for error handlers. -/
inductive Mode where
  | normal
  | error
  deriving DecidableEq, Repr

/-- How the dispatch of a request ended. -/
inductive Final (σ : Type) where
  | answered (s : σ) (r : Response)
  /-- Control ran off the end of the chain (Express answers 404, or 500 in error mode). -/
  | unhandled (mode : Mode) (s : σ) (req : Request)

/-- The record of one dispatch: the middlewares that executed, in order, each with its
outcome, and the way the dispatch ended. -/
structure Run (σ : Type) where
  trace : List (Mw × Outcome)
  final : Final σ

/-- Prepend an event to the record of the rest of a dispatch. -/
def Run.after {σ : Type} (e : Mw × Outcome) (r : Run σ) : Run σ :=
  { trace := e :: r.trace, final := r.final }

/-- Walk the chain: ordinary middlewares execute in normal mode, error handlers in error
mode; a middleware that passes resumes normal mode, one that fails enters error mode, and
one that responds ends the dispatch. -/
def runChain {σ : Type} (exec : Mw → σ → Request → Step σ) :
    List Stage → Mode → σ → Request → Run σ
  | [], mode, s, req => { trace := [], final := Final.unhandled mode s req }
  | st :: rest, mode, s, req =>
      if st.onError = (mode == Mode.error) then
        match exec st.mw s req with
        | Step.next s1 req1 =>
            Run.after (st.mw, Outcome.passed) (runChain exec rest Mode.normal s1 req1)
        | Step.respond s1 r =>
            { trace := [(st.mw, Outcome.responded)], final := Final.answered s1 r }
        | Step.fail s1 req1 =>
            Run.after (st.mw, Outcome.failed) (runChain exec rest Mode.error s1 req1)
      else runChain exec rest mode s req

/-- Dispatch a request through the application. -/
def dispatch {σ : Type} (app : App) (exec : Mw → σ → Request → Step σ) (s : σ)
    (req : Request) : Run σ :=
  runChain exec (chainOf app req) Mode.normal s req

/-! ## The rate limiter -/

/-- The options object passed to `rateLimit`. -/
structure RateLimitOptions where
  windowMs : Nat
  max : Nat
  message : String
  headers : Bool

/-- The options of `limiter` in `server.js`. -/
def limiterOptions : RateLimitOptions :=
  { windowMs := 15 * 60 * 1000
    max := 100
    message := "Too many requests from this IP, please try again later."
    headers := true }

/-- The per-client record of the rate limiter. -/
structure RateWindow where
  count : Nat
  windowStart : Nat
  deriving DecidableEq, Repr

/-- The rate limiter's map from client identifier to window. -/
abbrev Hits := String → Option RateWindow

/-- The decision of the rate limiter. -/
inductive Decision where
  | admitted
  | rejected
  deriving DecidableEq, Repr

/-- Store `w` as the window of `clientId`. -/
def Hits.put (hits : Hits) (clientId : String) (w : RateWindow) : Hits :=
  fun c => if c = clientId then some w else hits c

/-- Modelled from the spec: the rule `admit(clientId, now)` of section 4.1, which the
package `express-rate-limit` implements outside the repository.  A missing window, or one
with `now - windowStart ≥ windowDuration`, is replaced by a fresh window starting at `now`
with count 0; the count is then incremented, and the request is rejected exactly when the
count exceeds `maxRequests`.  Times are non-negative millisecond counts, so the truncated
subtraction agrees with the comparison of the rule. -/
def admitRequest (opts : RateLimitOptions) (hits : Hits) (clientId : String) (now : Nat) :
    Decision × Hits :=
  let current : RateWindow :=
    match hits clientId with
    | none => { count := 0, windowStart := now }
    | some w =>
        if now - w.windowStart ≥ opts.windowMs then { count := 0, windowStart := now } else w
  let counted : RateWindow := { current with count := current.count + 1 }
  (if counted.count > opts.max then Decision.rejected else Decision.admitted,
   hits.put clientId counted)

/-- The decisions for successive requests of one client arriving at the given times. -/
def serve (opts : RateLimitOptions) (hits : Hits) (clientId : String) :
    List Nat → List Decision
  | [] => []
  | t :: rest =>
      (admitRequest opts hits clientId t).1 ::
        serve opts (admitRequest opts hits clientId t).2 clientId rest

/-! ## The session verifier -/

/-- The resolved user context attached to a request. -/
structure Identity where
  userId : String
  displayAttributes : List (String × String)
  deriving DecidableEq, Repr

def Identity.toJs (i : Identity) : JsValue :=
  JsValue.obj
    [("userId", JsValue.str i.userId),
     ("displayAttributes",
       JsValue.obj (i.displayAttributes.map (fun kv => (kv.1, JsValue.str kv.2))))]

/-- Modelled from the spec: the results of validating a credential token against the
Credential Store (sections 4.2 and 7); the store sits behind `./middlewares/auth.js` and
`./db.js`, which are not among the sources. -/
inductive TokenCheck where
  | malformed
  | badSignature
  | expired
  | noSession
  | storeUnavailable
  | valid (userId : String)
  deriving DecidableEq, Repr

/-- Modelled from the spec: the Credential Store interface of section 6, token validation
and user lookup. -/
structure CredentialStore where
  check : String → TokenCheck
  findUser : String → Option Identity

/-- The decision of the session verifier. -/
inductive VerifyOutcome where
  | authenticated (identity : Identity)
  | unauthenticated
  deriving DecidableEq, Repr

/-- Modelled from the spec: `verify(request)` of section 4.2, the decision taken by
`protect` of `./middlewares/auth.js`.  An absent token, a token that fails validation for
any reason, and a valid token whose user no longer exists are all `Unauthenticated`. -/
def verify (store : CredentialStore) (token : Option String) : VerifyOutcome :=
  match token with
  | none => VerifyOutcome.unauthenticated
  | some t =>
      match store.check t with
      | TokenCheck.valid uid =>
          match store.findUser uid with
          | some identity => VerifyOutcome.authenticated identity
          | none => VerifyOutcome.unauthenticated
      | _ => VerifyOutcome.unauthenticated

/-- Modelled from the spec: `protect` as a middleware (section 4.2).  On `Authenticated`
it attaches the identity to the request and passes control on; on `Unauthenticated` it
ends the response with the rejection. -/
def protectStep {σ : Type} (store : CredentialStore) (s : σ) (req : Request) : Step σ :=
  match verify store req.token with
  | VerifyOutcome.authenticated identity => Step.next s { req with user := identity.toJs }
  | VerifyOutcome.unauthenticated => Step.respond s Response.unauthenticated

/-! ## The server's middlewares, executed -/

/-- What an imported middleware does with a request. -/
inductive ExtOutcome where
  | next
  | respond (body : String)
  | fail

/-- The collaborators of `server.js`: the behaviour of the imported middlewares and the
Credential Store consulted by `protect`. -/
structure Env where
  external : Mw → Request → ExtOutcome
  credentials : CredentialStore

/-- The rate limiter as a middleware: it consults the admission rule with the client's
address and ends the response with status 429 and the configured message on rejection. -/
def limiterStep (hits : Hits) (req : Request) : Step Hits :=
  match admitRequest limiterOptions hits req.ip req.now with
  | (Decision.admitted, hits1) => Step.next hits1 req
  | (Decision.rejected, hits1) =>
      Step.respond hits1 (Response.tooManyRequests limiterOptions.message)

/-- Execute one middleware of `server.js` on the rate limiter's state. -/
def serverExec (env : Env) : Mw → Hits → Request → Step Hits
  | Mw.limiter, hits, req => limiterStep hits req
  | Mw.protect, hits, req => protectStep env.credentials hits req
  | Mw.handler h, hits, req => Step.respond hits (runHandler h req)
  | Mw.inlineLog, hits, req => Step.next hits req
  | mw, hits, req =>
      match env.external mw req with
      | ExtOutcome.next => Step.next hits req
      | ExtOutcome.respond body => Step.respond hits (Response.external mw body)
      | ExtOutcome.fail => Step.fail hits req

/-! ## Static views of the application -/

/-- The routes registered with `app.get`, in registration order: path and stack. -/
def routes (app : App) : List (String × List Mw) :=
  app.layers.filterMap
    (fun l =>
      match l with
      | Layer.get path stack => some (path, stack)
      | _ => none)

/-- The paths registered with `app.get`, in registration order. -/
def getPaths (app : App) : List String := (routes app).map Prod.fst

/-- A GET request for `path` that carries nothing else. -/
def probe (path : String) : Request :=
  { method := Method.GET, path := path, query := [], ip := "", now := 0, token := none,
    user := JsValue.undefined }

/-- The middlewares in the chain of a GET request for `path`. -/
def routeChain (app : App) (path : String) : List Mw :=
  (chainOf app (probe path)).map Stage.mw

/-- Whether `a` occurs in `chain` ahead of the first occurrence of `b`. -/
def standsBefore (a b : Mw) (chain : List Mw) : Bool :=
  decide (b ∈ chain) && decide (a ∈ chain.takeWhile (fun m => decide (m ≠ b)))

/-- The three kinds of route of section 4.3. -/
inductive RouteClass where
  /-- Neither the rate limiter nor `protect`. -/
  | ungated
  /-- The rate limiter, not `protect`. -/
  | limitedOnly
  /-- Both. -/
  | gated
  deriving DecidableEq, Repr

/-- The class of the route at `path`, read off the chain of a GET request for it. -/
def classify (app : App) (path : String) : Option RouteClass :=
  match decide (Mw.limiter ∈ routeChain app path), decide (Mw.protect ∈ routeChain app path) with
  | false, false => some RouteClass.ungated
  | true, false => some RouteClass.limitedOnly
  | true, true => some RouteClass.gated
  | false, true => none

/-- Whether a path is spelled `/api/<resource>`. -/
def underApi (path : String) : Bool := "/api/".data.isPrefixOf path.data

/-- Whether a request path, letter case aside, is `/api` or continues it with a slash. -/
def underApiMount (path : String) : Bool :=
  let p := path.data.map Char.toLower
  p == "/api".data || "/api/".data.isPrefixOf p

/-- The state in which a dispatch ended. -/
def Final.state {σ : Type} : Final σ → σ
  | Final.answered s _ => s
  | Final.unhandled _ s _ => s

/-- The response written by the application's middlewares, if any. -/
def Final.response {σ : Type} : Final σ → Option Response
  | Final.answered _ r => some r
  | Final.unhandled _ _ _ => none

/-- The routes registered with `protect` in front of their handler: path and handler. -/
def protectedRoutes (app : App) : List (String × HandlerId) :=
  (routes app).filterMap
    (fun r =>
      match r.2 with
      | [Mw.protect, Mw.handler h] => some (r.1, h)
      | _ => none)

/-- The middlewares installed with `app.use` ahead of the rate limiter. -/
def beforeLimiter : List Mw :=
  [Mw.morgan, Mw.helmetCsp, Mw.cors, Mw.cookieParser, Mw.json, Mw.urlencoded]

/-- The middlewares installed with `app.use` between the rate limiter and the routes. -/
def afterLimiter : List Mw := [Mw.logger, Mw.inlineLog, Mw.static, Mw.apiRoutes]

/-- The chain of a request addressed to the protected route with handler `h`. -/
def gatedChain (h : HandlerId) : List Stage :=
  (beforeLimiter ++ Mw.limiter :: (afterLimiter ++ [Mw.protect, Mw.handler h])).map ordinary ++
    [{ mw := Mw.errorHandler, onError := true }]

/-- An imported environment in which every imported middleware passes control on and the
Credential Store knows nobody. -/
def passAll : Env :=
  { external := fun _ _ => ExtOutcome.next
    credentials := { check := fun _ => TokenCheck.noSession, findUser := fun _ => none } }

/-! ## The rate limiter: quota and reset -/

theorem serve_length (opts : RateLimitOptions) (clientId : String) (ts : List Nat) :
    ∀ hits : Hits, (serve opts hits clientId ts).length = ts.length := by
  induction ts with
  | nil => intro hits; rfl
  | cons t rest ih => intro hits; simp [serve, ih]

/-- Inside a running window the decisions depend only on the running count. -/
theorem serve_in_window (opts : RateLimitOptions) (clientId : String) (t0 : Nat)
    (ts : List Nat) :
    ∀ (hits : Hits) (n : Nat), hits clientId = some { count := n, windowStart := t0 } →
      (∀ t ∈ ts, t - t0 < opts.windowMs) →
      ∀ i, i < ts.length →
        (serve opts hits clientId ts)[i]? =
          some (if n + i + 1 > opts.max then Decision.rejected else Decision.admitted) := by
  induction ts with
  | nil => intro hits n _ _ i hi; simp at hi
  | cons t rest ih =>
      intro hits n hw hin i hi
      have ht : t - t0 < opts.windowMs := hin t (List.mem_cons_self _ _)
      have hnot : ¬ (t - t0 ≥ opts.windowMs) := Nat.not_le.mpr ht
      cases i with
      | zero => simp [serve, admitRequest, hw, hnot]
      | succ j =>
          have hj : j < rest.length := by simpa using hi
          have hnext : (admitRequest opts hits clientId t).2 clientId =
              some { count := n + 1, windowStart := t0 } := by
            simp [admitRequest, hw, hnot, Hits.put]
          have := ih (admitRequest opts hits clientId t).2 (n + 1) hnext
            (fun u hu => hin u (List.mem_cons_of_mem _ hu)) j hj
          simp only [serve, List.getElem?_cons_succ, this]
          have e : n + 1 + j + 1 = n + (j + 1) + 1 := by omega
          rw [e]

/-- The first request of a window is counted as 1 in a window starting at its time. -/
theorem admitRequest_fresh (opts : RateLimitOptions) (hits : Hits) (clientId : String)
    (now : Nat)
    (hfresh : hits clientId = none ∨
      ∃ w, hits clientId = some w ∧ now - w.windowStart ≥ opts.windowMs) :
    (admitRequest opts hits clientId now).1 =
        (if 1 > opts.max then Decision.rejected else Decision.admitted) ∧
      (admitRequest opts hits clientId now).2 clientId =
        some { count := 1, windowStart := now } := by
  rcases hfresh with h | ⟨w, h, hexp⟩
  · simp [admitRequest, h, Hits.put]
  · simp [admitRequest, h, hexp, Hits.put]

/-- C2: with `max = 100` and `windowMs = 900000`, when the first request of a client opens
a window (no window yet, or the old one has run out) and the following requests all arrive
inside that window, the k-th request is admitted if and only if `k ≤ 100`, and rejected if
and only if `100 < k`. -/
theorem limiter_quota_within_window (hits : Hits) (clientId : String) (t0 : Nat)
    (rest : List Nat)
    (hfresh : hits clientId = none ∨
      ∃ w, hits clientId = some w ∧ t0 - w.windowStart ≥ limiterOptions.windowMs)
    (hwin : ∀ t ∈ rest, t - t0 < limiterOptions.windowMs)
    (k : Nat) (hk1 : 1 ≤ k) (hk : k ≤ (t0 :: rest).length) :
    limiterOptions.max = 100 ∧ limiterOptions.windowMs = 900000 ∧
      ((serve limiterOptions hits clientId (t0 :: rest))[k - 1]? = some Decision.admitted ↔
        k ≤ 100) ∧
      ((serve limiterOptions hits clientId (t0 :: rest))[k - 1]? = some Decision.rejected ↔
        100 < k) := by
  have hfirst := admitRequest_fresh limiterOptions hits clientId t0 hfresh
  have hmax : limiterOptions.max = 100 := rfl
  refine ⟨rfl, rfl, ?_⟩
  obtain ⟨j, rfl⟩ : ∃ j, k = j + 1 := ⟨k - 1, by omega⟩
  cases j with
  | zero =>
      have h1 : (admitRequest limiterOptions hits clientId t0).1 = Decision.admitted := by
        rw [hfirst.1, hmax]; rfl
      simp [serve, h1]
  | succ i =>
      have hi : i < rest.length := by simp at hk; omega
      have hrest := serve_in_window limiterOptions clientId t0 rest
        (admitRequest limiterOptions hits clientId t0).2 1 hfirst.2 hwin i hi
      have hget : (serve limiterOptions hits clientId (t0 :: rest))[i + 1 + 1 - 1]? =
          some (if 1 + i + 1 > limiterOptions.max then Decision.rejected
            else Decision.admitted) := by
        simpa [serve] using hrest
      rw [hget, hmax]
      by_cases hle : 1 + i + 1 > 100
      · simp only [hle, if_true]
        refine ⟨⟨?_, ?_⟩, ⟨?_, ?_⟩⟩ <;> intro h <;> first | trivial | omega
      · simp only [hle, if_false]
        refine ⟨⟨?_, ?_⟩, ⟨?_, ?_⟩⟩ <;> intro h <;> first | trivial | omega

/-- A client with no window sends 101 requests within five milliseconds: the 101st is
rejected. -/
theorem limiter_quota_within_window_witness :
    (serve limiterOptions (fun _ => none) "203.0.113.7" (0 :: List.replicate 100 5))[101 - 1]? =
      some Decision.rejected :=
  ((limiter_quota_within_window (fun _ => none) "203.0.113.7" 0 (List.replicate 100 5)
      (Or.inl rfl)
      (by intro t ht; rw [List.eq_of_mem_replicate ht]; decide)
      101 (by decide) (by simp)).2.2.2).mpr (by decide)

/-- C3: with `windowMs = 900000` and `max = 100`, a request that arrives at least 900000 ms
after the start of the client's window is admitted whatever the old count was, and leaves
the window `{count: 1, windowStart: now}`. -/
theorem limiter_resets_after_window (hits : Hits) (clientId : String) (w : RateWindow)
    (now : Nat) (hw : hits clientId = some w) (hexp : now - w.windowStart ≥ 900000) :
    (admitRequest limiterOptions hits clientId now).1 = Decision.admitted ∧
      (admitRequest limiterOptions hits clientId now).2 clientId =
        some { count := 1, windowStart := now } := by
  have h := admitRequest_fresh limiterOptions hits clientId now (Or.inr ⟨w, hw, hexp⟩)
  exact ⟨by rw [h.1]; rfl, h.2⟩

/-- An exhausted window (count 250, started at 1000) is reset by a request at 901000. -/
theorem limiter_resets_after_window_witness :
    (admitRequest limiterOptions
        (fun c => if c = "203.0.113.7" then some { count := 250, windowStart := 1000 } else none)
        "203.0.113.7" 901000).1 = Decision.admitted ∧
      (admitRequest limiterOptions
        (fun c => if c = "203.0.113.7" then some { count := 250, windowStart := 1000 } else none)
        "203.0.113.7" 901000).2 "203.0.113.7" = some { count := 1, windowStart := 901000 } :=
  limiter_resets_after_window
    (fun c => if c = "203.0.113.7" then some { count := 250, windowStart := 1000 } else none)
    "203.0.113.7" { count := 250, windowStart := 1000 } 901000 (by simp) (by decide)

/-! ## The session verifier on missing and malformed tokens -/

/-- C7: for a request whose credential cookie is missing or malformed, `protect` decides
`Unauthenticated`: it ends the response with the rejection, neither failing nor passing
control on, attaches no identity, and the handler behind it in a route's stack is not
executed. -/
theorem protect_rejects_missing_or_malformed (env : Env) (hits : Hits) (req : Request)
    (hid : HandlerId) (path : String)
    (htoken : req.token = none ∨
      ∃ t, req.token = some t ∧ env.credentials.check t = TokenCheck.malformed) :
    verify env.credentials req.token = VerifyOutcome.unauthenticated ∧
      serverExec env Mw.protect hits req = Step.respond hits Response.unauthenticated ∧
      (runChain (serverExec env) (Layer.get path [Mw.protect, Mw.handler hid]).stages
          Mode.normal hits req).trace = [(Mw.protect, Outcome.responded)] ∧
      (runChain (serverExec env) (Layer.get path [Mw.protect, Mw.handler hid]).stages
          Mode.normal hits req).final = Final.answered hits Response.unauthenticated := by
  have hv : verify env.credentials req.token = VerifyOutcome.unauthenticated := by
    rcases htoken with h | ⟨t, h, hbad⟩
    · simp [verify, h]
    · simp [verify, h, hbad]
  have hstep : serverExec env Mw.protect hits req =
      Step.respond hits Response.unauthenticated := by
    simp [serverExec, protectStep, hv]
  refine ⟨hv, hstep, ?_, ?_⟩ <;> simp [Layer.stages, ordinary, runChain, hstep]

/-- A request without a cookie to the stack of `/api/team` stops at `protect`. -/
theorem protect_rejects_missing_or_malformed_witness :
    (runChain
        (serverExec
          { external := fun _ _ => ExtOutcome.next,
            credentials := { check := fun _ => TokenCheck.malformed, findUser := fun _ => none } })
        (Layer.get "/api/team" [Mw.protect, Mw.handler HandlerId.team]).stages
        Mode.normal (fun _ => none) (probe "/api/team")).trace =
      [(Mw.protect, Outcome.responded)] :=
  (protect_rejects_missing_or_malformed
    { external := fun _ _ => ExtOutcome.next,
      credentials := { check := fun _ => TokenCheck.malformed, findUser := fun _ => none } }
    (fun _ => none) (probe "/api/team") HandlerId.team "/api/team" (Or.inl rfl)).2.2.1

/-! ## The login and register pages -/

theorem getProp_eq_lookup (q : List (String × JsValue)) (key : String) :
    getProp q key = (q.lookup key).getD JsValue.undefined := by
  induction q with
  | nil => rfl
  | cons kv rest ih =>
      obtain ⟨k, v⟩ := kv
      by_cases h : k = key
      · subst h; simp [getProp, List.lookup]
      · have hne : (key == k) = false := by
          simp only [beq_eq_false_iff_ne, ne_eq]; exact fun e => h e.symm
        simp [getProp, List.lookup, h, hne, ih]

/-- C8: `GET /` is registered with the login handler alone, which renders `login` with
exactly the locals `error` and `success`, each the request's query parameter of that name
and `undefined` when the parameter is absent; `GET /register` is registered with the
register handler alone, which renders `register` with `error` equal to `null` whatever the
request is. -/
theorem login_and_register_render (req : Request) :
    ("/", [Mw.handler HandlerId.login]) ∈ routes server ∧
      ("/register", [Mw.handler HandlerId.register]) ∈ routes server ∧
      runHandler HandlerId.login req =
        Response.render "login"
          (some [("error", (req.query.lookup "error").getD JsValue.undefined),
                 ("success", (req.query.lookup "success").getD JsValue.undefined)]) ∧
      runHandler HandlerId.register req =
        Response.render "register" (some [("error", JsValue.null)]) := by
  refine ⟨by decide, by decide, ?_, rfl⟩
  simp [runHandler, getProp_eq_lookup]

/-! ## The venue pages -/

/-- C9: the `barPages.forEach` loop appends one route `GET /api/<p>` per entry `p`, with
stack `protect` then the handler of that page; in the finished application each such path
has exactly that one route; the handler renders the view `p` with the single local `user`
equal to `req.user`; and the paths registered with `app.get` are pairwise distinct, also
as the router compares them. -/
theorem barPages_routes (app : App) (req : Request) (page : String) :
    (registerBarPages app).layers =
        app.layers ++
          barPages.map
            (fun p => Layer.get ("/api/" ++ p) [Mw.protect, Mw.handler (HandlerId.barPage p)]) ∧
      (∀ p ∈ barPages,
        (routes server).filter (fun r => decide (r.1 = "/api/" ++ p)) =
          [("/api/" ++ p, [Mw.protect, Mw.handler (HandlerId.barPage p)])]) ∧
      runHandler (HandlerId.barPage page) req = Response.render page (some [("user", req.user)]) ∧
      (barPages.map (fun p => "/api/" ++ p)).Nodup ∧
      (getPaths server).Nodup ∧
      ((getPaths server).map server.routeKey).Nodup := by
  refine ⟨?_, by decide, rfl, by decide, by decide, by decide⟩
  simp [registerBarPages, barPages, App.get]

/-- C10: the links of `chdBars` followed by those of `ldhBars` are, in order, `/api/`
prefixed to the entries of `barPages`; the `bars` view receives these two tables; every
link is the path of a route whose stack contains `protect`; and every `barPages` route is
linked exactly once. -/
theorem bar_links_match_barPages (req : Request) :
    (chdBars ++ ldhBars).map Bar.link = barPages.map (fun p => "/api/" ++ p) ∧
      runHandler HandlerId.bar req =
        Response.render "bars"
          (some [("chdBars", JsValue.arr (chdBars.map Bar.toJs)),
                 ("ldhBars", JsValue.arr (ldhBars.map Bar.toJs)), ("user", req.user)]) ∧
      (∀ b ∈ chdBars ++ ldhBars, ∃ r ∈ routes server, r.1 = b.link ∧ Mw.protect ∈ r.2) ∧
      (∀ p ∈ barPages, ((chdBars ++ ldhBars).map Bar.link).count ("/api/" ++ p) = 1) := by
  exact ⟨by decide, rfl, by decide, by decide⟩

/-! ## Route classification -/

/-- The chain of a request depends on its method and path only. -/
theorem chainOf_congr (app : App) (r1 r2 : Request) (hm : r1.method = r2.method)
    (hp : r1.path = r2.path) : chainOf app r1 = chainOf app r2 := by
  unfold chainOf
  rw [hm, hp]

/-- C5: the GET routes of `server.js`, in registration order, with their classes: `/` and
`/register` have neither the rate limiter nor `protect` in their chain; the dashboard, bar,
reserve-table, team and the eight venue routes have both; `/api/faq`, `/api/ourservices`
and `/api/contactus` have the rate limiter only.  The class is read off the chain of a GET
request for the route's path, which every GET request with that path shares. -/
theorem route_classification (req : Request) :
    (getPaths server).map (fun p => (p, classify server p)) =
        [("/", some RouteClass.ungated), ("/register", some RouteClass.ungated),
         ("/api/dashboard", some RouteClass.gated), ("/api/bar", some RouteClass.gated),
         ("/api/reserve-table", some RouteClass.gated), ("/api/team", some RouteClass.gated),
         ("/api/brewestate", some RouteClass.gated), ("/api/boulevard", some RouteClass.gated),
         ("/api/kalaghoda", some RouteClass.gated), ("/api/mobe", some RouteClass.gated),
         ("/api/paara", some RouteClass.gated), ("/api/romeo-ldh", some RouteClass.gated),
         ("/api/luna-ldh", some RouteClass.gated), ("/api/baklavi-ldh", some RouteClass.gated),
         ("/api/faq", some RouteClass.limitedOnly),
         ("/api/ourservices", some RouteClass.limitedOnly),
         ("/api/contactus", some RouteClass.limitedOnly)] ∧
      (req.method = Method.GET →
        (chainOf server req).map Stage.mw = routeChain server req.path) := by
  refine ⟨by decide, ?_⟩
  intro hm
  unfold routeChain
  rw [chainOf_congr server req (probe req.path) hm rfl]

/-- A GET request for `/api/faq` from any client has the chain of the
route, with the rate limiter and without `protect`. -/
theorem route_classification_witness :
    (chainOf server { probe "/api/faq" with ip := "203.0.113.7", now := 42 }).map Stage.mw =
      routeChain server "/api/faq" :=
  (route_classification { probe "/api/faq" with ip := "203.0.113.7", now := 42 }).2 rfl

/-- The route `GET /api/faq` is registered under `/api/`, the rate limiter stands before
its handler, and `protect` does not. -/
theorem api_faq_skips_protect :
    ("/api/faq", [Mw.handler (HandlerId.staticPage "faq")]) ∈ routes server ∧
      underApi "/api/faq" = true ∧
      standsBefore Mw.limiter (Mw.handler (HandlerId.staticPage "faq"))
        (routeChain server "/api/faq") = true ∧
      standsBefore Mw.protect (Mw.handler (HandlerId.staticPage "faq"))
        (routeChain server "/api/faq") = false := by
  decide

/-- C4 (amended): for every GET route of `server.js` with a path `/api/<resource>`, the
rate limiter stands before the route's handler in its chain, and `protect` stands before
the handler exactly when the route is not one of the three `staticPages` routes. -/
theorem api_routes_gateway (r : String × List Mw) (h : Mw) (hr : r ∈ routes server)
    (hapi : underApi r.1 = true) (hh : r.2.getLast? = some h) :
    standsBefore Mw.limiter h (routeChain server r.1) = true ∧
      (standsBefore Mw.protect h (routeChain server r.1) = true ↔
        r.1 ∉ staticPages.map (fun p => "/api/" ++ p)) := by
  have key : ∀ r ∈ routes server, underApi r.1 = true → ∀ h ∈ r.2.getLast?,
      standsBefore Mw.limiter h (routeChain server r.1) = true ∧
        (standsBefore Mw.protect h (routeChain server r.1) = true ↔
          r.1 ∉ staticPages.map (fun p => "/api/" ++ p)) := by
    decide
  exact key r hr hapi h hh

/-- The route `GET /api/team` has the rate limiter and `protect` before its handler. -/
theorem api_routes_gateway_witness :
    standsBefore Mw.limiter (Mw.handler HandlerId.team) (routeChain server "/api/team") = true ∧
      (standsBefore Mw.protect (Mw.handler HandlerId.team) (routeChain server "/api/team") = true ↔
        "/api/team" ∉ staticPages.map (fun p => "/api/" ++ p)) :=
  api_routes_gateway ("/api/team", [Mw.protect, Mw.handler HandlerId.team])
    (Mw.handler HandlerId.team) (by decide) (by decide) rfl

/-! ## The reach of the rate limiter -/

theorem server_fold (s : String) : server.fold s = s.data.map Char.toLower := by
  have h : server.enabled "case sensitive routing" = false := by decide
  simp [App.fold, h]

theorem server_trim (p : List Char) : server.trim p = stripSlash p := by
  have h : server.enabled "strict routing" = false := by decide
  simp [App.trim, h]

theorem mountMatches_api (p : List Char) :
    mountMatches ['/', 'a', 'p', 'i'] p =
      (p == ['/', 'a', 'p', 'i'] || ['/', 'a', 'p', 'i', '/'].isPrefixOf p) := by
  rcases p with _ | ⟨a, _ | ⟨b, _ | ⟨c, _ | ⟨d, _ | ⟨e, t⟩⟩⟩⟩⟩ <;>
    simp [mountMatches, List.isPrefixOf] <;>
    (rw [Bool.eq_iff_iff]; simp only [Bool.and_eq_true, beq_iff_eq];
      constructor <;> intro h <;> aesop)

theorem limiter_layer_unique :
    ∀ l ∈ server.layers, ∀ st ∈ l.stages, st.mw = Mw.limiter →
      l = Layer.use (some "/api") Mw.limiter := by
  decide

theorem mem_chainFor (app : App) (g : Bool) (p : List Char) (st : Stage) :
    st ∈ chainFor app g p ↔ ∃ l ∈ app.layers, l.accepts app g p = true ∧ st ∈ l.stages := by
  unfold chainFor
  rw [List.mem_flatMap]
  constructor
  · rintro ⟨l, hl, hst⟩
    by_cases h : l.accepts app g p = true
    · exact ⟨l, hl, h, by simpa [h] using hst⟩
    · simp [h] at hst
  · rintro ⟨l, hl, h, hst⟩
    exact ⟨l, hl, by simpa [h] using hst⟩

theorem limiter_in_chain_iff (req : Request) :
    Mw.limiter ∈ (chainOf server req).map Stage.mw ↔ underApiMount req.path = true := by
  have hm : server.fold "/api" = ['/', 'a', 'p', 'i'] := by decide
  constructor
  · intro h
    obtain ⟨st, hst, hmw⟩ := List.mem_map.mp h
    obtain ⟨l, hl, hacc, hmem⟩ := (mem_chainFor _ _ _ _).mp hst
    have := limiter_layer_unique l hl st hmem hmw
    subst this
    simp only [Layer.accepts, hm, mountMatches_api, server_fold] at hacc
    simpa [underApiMount] using hacc
  · intro h
    refine List.mem_map.mpr ⟨ordinary Mw.limiter, ?_, rfl⟩
    refine (mem_chainFor _ _ _ _).mpr ⟨Layer.use (some "/api") Mw.limiter, by decide, ?_, ?_⟩
    · simp only [Layer.accepts, hm, mountMatches_api, server_fold]
      simpa [underApiMount] using h
    · simp [Layer.stages]

/-- Every middleware other than the rate limiter leaves the limiter's state alone and never
writes the limiter's rejection. -/
theorem serverExec_frame (env : Env) (mw : Mw) (hits : Hits) (req : Request)
    (hmw : mw ≠ Mw.limiter) :
    (∃ req1, serverExec env mw hits req = Step.next hits req1) ∨
      (∃ r, serverExec env mw hits req = Step.respond hits r ∧
        ∀ msg, r ≠ Response.tooManyRequests msg) ∨
      (∃ req1, serverExec env mw hits req = Step.fail hits req1) := by
  have hext : ∀ m : Mw,
      (∃ req1, (match env.external m req with
          | ExtOutcome.next => Step.next hits req
          | ExtOutcome.respond body => Step.respond hits (Response.external m body)
          | ExtOutcome.fail => Step.fail hits req) = Step.next hits req1) ∨
      (∃ r, (match env.external m req with
          | ExtOutcome.next => Step.next hits req
          | ExtOutcome.respond body => Step.respond hits (Response.external m body)
          | ExtOutcome.fail => Step.fail hits req) = Step.respond hits r ∧
        ∀ msg, r ≠ Response.tooManyRequests msg) ∨
      (∃ req1, (match env.external m req with
          | ExtOutcome.next => Step.next hits req
          | ExtOutcome.respond body => Step.respond hits (Response.external m body)
          | ExtOutcome.fail => Step.fail hits req) = Step.fail hits req1) := by
    intro m
    cases env.external m req with
    | next => exact Or.inl ⟨req, rfl⟩
    | respond body => exact Or.inr (Or.inl ⟨_, rfl, fun msg h => by cases h⟩)
    | fail => exact Or.inr (Or.inr ⟨req, rfl⟩)
  cases mw with
  | limiter => exact absurd rfl hmw
  | protect =>
      have e : serverExec env Mw.protect hits req = protectStep env.credentials hits req :=
        rfl
      rw [e]
      unfold protectStep
      split
      · exact Or.inl ⟨_, rfl⟩
      · exact Or.inr (Or.inl ⟨_, rfl, fun msg h => by cases h⟩)
  | handler h =>
      refine Or.inr (Or.inl ⟨runHandler h req, rfl, ?_⟩)
      intro msg
      cases h <;> simp [runHandler]
  | inlineLog => exact Or.inl ⟨req, rfl⟩
  | morgan => exact hext _
  | helmetCsp => exact hext _
  | cors => exact hext _
  | cookieParser => exact hext _
  | json => exact hext _
  | urlencoded => exact hext _
  | logger => exact hext _
  | static => exact hext _
  | apiRoutes => exact hext _
  | errorHandler => exact hext _

/-- A chain without the rate limiter ends in the state it started from and never with the
limiter's rejection. -/
theorem runChain_without_limiter (env : Env) (chain : List Stage) :
    (∀ st ∈ chain, st.mw ≠ Mw.limiter) →
      ∀ (mode : Mode) (hits : Hits) (req : Request),
        (runChain (serverExec env) chain mode hits req).final.state = hits ∧
          ∀ msg, (runChain (serverExec env) chain mode hits req).final.response ≠
            some (Response.tooManyRequests msg) := by
  induction chain with
  | nil =>
      intro _ mode hits req
      simp [runChain, Final.state, Final.response]
  | cons st rest ih =>
      intro hno mode hits req
      have hrest : ∀ st1 ∈ rest, st1.mw ≠ Mw.limiter :=
        fun st1 h => hno st1 (List.mem_cons_of_mem _ h)
      have hst : st.mw ≠ Mw.limiter := hno st (List.mem_cons_self _ _)
      unfold runChain
      by_cases hrun : st.onError = (mode == Mode.error)
      · rw [if_pos hrun]
        rcases serverExec_frame env st.mw hits req hst with
          ⟨req1, h⟩ | ⟨r, h, hr⟩ | ⟨req1, h⟩
        · rw [h]; exact ih hrest Mode.normal hits req1
        · rw [h]
          refine ⟨rfl, ?_⟩
          intro msg hmsg
          simp only [Final.response, Option.some.injEq] at hmsg
          exact hr msg hmsg
        · rw [h]; exact ih hrest Mode.error hits req1
      · rw [if_neg hrun]; exact ih hrest mode hits req

/-- A GET request for `/API/bar` is not spelled under `/api/`, yet the rate limiter is in
its chain and counts it. -/
theorem limiter_counts_uppercase_path :
    Mw.limiter ∈ routeChain server "/API/bar" ∧
      "/API/bar" ≠ "/api" ∧ underApi "/API/bar" = false ∧
      (dispatch server (serverExec passAll) (fun _ => none)
          { probe "/API/bar" with ip := "203.0.113.7", now := 42 }).final.state "203.0.113.7" =
        some { count := 1, windowStart := 42 } := by
  decide

/-- C6 (amended): the rate limiter is in the chain of a request if and only if the path,
letter case aside, is `/api` or begins with `/api/`; a request to any other path leaves
every client's window as it was and is never answered with the limiter's rejection. -/
theorem limiter_only_under_api (env : Env) (hits : Hits) (req : Request) :
    (Mw.limiter ∈ (chainOf server req).map Stage.mw ↔ underApiMount req.path = true) ∧
      (underApiMount req.path = false →
        (dispatch server (serverExec env) hits req).final.state = hits ∧
          ∀ msg, (dispatch server (serverExec env) hits req).final.response ≠
            some (Response.tooManyRequests msg)) := by
  refine ⟨limiter_in_chain_iff req, ?_⟩
  intro h
  apply runChain_without_limiter
  intro st hst hmw
  have := (limiter_in_chain_iff req).mp (List.mem_map.mpr ⟨st, hst, hmw⟩)
  rw [h] at this
  cases this

/-- A request for `/register` is outside the limiter's mount: the limiter's state is
unchanged. -/
theorem limiter_only_under_api_witness :
    (dispatch server (serverExec passAll) (fun _ => none) (probe "/register")).final.state =
      (fun _ => none) :=
  ((limiter_only_under_api passAll (fun _ => none) (probe "/register")).2 (by decide)).1

/-! ## The order of the gateway -/

/-- In error mode ordinary middlewares are skipped. -/
theorem runChain_error_skips {σ : Type} (exec : Mw → σ → Request → Step σ) (ms : List Mw)
    (rest : List Stage) (s : σ) (req : Request) :
    runChain exec (ms.map ordinary ++ rest) Mode.error s req =
      runChain exec rest Mode.error s req := by
  induction ms with
  | nil => rfl
  | cons m ms ih =>
      have hskip : ¬ ((ordinary m).onError = (Mode.error == Mode.error)) := by
        simp [ordinary]
      simp only [List.map_cons, List.cons_append]
      rw [runChain, if_neg hskip, ih]

/-- Every recorded event belongs to a middleware of the chain. -/
theorem trace_mem_chain {σ : Type} (exec : Mw → σ → Request → Step σ)
    (es : List Stage) :
    ∀ (mode : Mode) (s : σ) (req : Request),
      ∀ e ∈ (runChain exec es mode s req).trace, e.1 ∈ es.map Stage.mw := by
  induction es with
  | nil => intro mode s req e he; simp [runChain] at he
  | cons st rest ih =>
      intro mode s req e he
      unfold runChain at he
      by_cases hrun : st.onError = (mode == Mode.error)
      · rw [if_pos hrun] at he
        cases hstep : exec st.mw s req with
        | next s1 req1 =>
            rw [hstep] at he
            simp only [Run.after, List.mem_cons] at he
            rcases he with rfl | he
            · simp
            · exact List.mem_cons_of_mem _ (ih _ _ _ e he)
        | respond s1 r =>
            rw [hstep] at he
            simp only [List.mem_singleton] at he
            subst he; simp
        | fail s1 req1 =>
            rw [hstep] at he
            simp only [Run.after, List.mem_cons] at he
            rcases he with rfl | he
            · simp
            · exact List.mem_cons_of_mem _ (ih _ _ _ e he)
      · rw [if_neg hrun] at he
        exact List.mem_cons_of_mem _ (ih _ _ _ e he)

/-- In normal mode error handlers are skipped. -/
theorem runChain_normal_skips {σ : Type} (exec : Mw → σ → Request → Step σ)
    (es : List Stage) (hes : ∀ st ∈ es, st.onError = true) (s : σ) (req : Request) :
    (runChain exec es Mode.normal s req).trace = [] := by
  induction es with
  | nil => rfl
  | cons st rest ih =>
      have hst : st.onError = true := hes st (List.mem_cons_self _ _)
      have hskip : ¬ (st.onError = (Mode.normal == Mode.error)) := by
        rw [hst]; decide
      rw [runChain, if_neg hskip]
      exact ih (fun st1 h => hes st1 (List.mem_cons_of_mem _ h))

/-- The shape of every trace: the ordinary middlewares of a chain execute in order, each
passing control on, until one responds or fails; after a failure only error handlers
execute. -/
theorem trace_shape {σ : Type} (exec : Mw → σ → Request → Step σ) (es : List Stage)
    (hes : ∀ st ∈ es, st.onError = true) :
    ∀ (ms : List Mw) (s : σ) (req : Request),
      ∃ ms1 ms2 tl, ms = ms1 ++ ms2 ∧
        (runChain exec (ms.map ordinary ++ es) Mode.normal s req).trace =
          ms1.map (fun m => (m, Outcome.passed)) ++ tl ∧
        (tl = [] ∨ ∃ m rest k te, ms2 = m :: rest ∧ k ≠ Outcome.passed ∧ tl = (m, k) :: te ∧
          ∀ e ∈ te, e.1 ∈ es.map Stage.mw) := by
  intro ms
  induction ms with
  | nil =>
      intro s req
      exact ⟨[], [], [], rfl, by simpa using runChain_normal_skips exec es hes s req, Or.inl rfl⟩
  | cons m ms ih =>
      intro s req
      have hrun : (ordinary m).onError = (Mode.normal == Mode.error) := by
        simp [ordinary]
      simp only [List.map_cons, List.cons_append]
      rw [runChain, if_pos hrun]
      have hm : (ordinary m).mw = m := rfl
      rw [hm]
      cases hstep : exec m s req with
      | next s1 req1 =>
          obtain ⟨ms1, ms2, tl, hsplit, htr, htl⟩ := ih s1 req1
          refine ⟨m :: ms1, ms2, tl, by simp [hsplit], ?_, htl⟩
          simp [Run.after, htr]
      | respond s1 r =>
          exact ⟨[], m :: ms, [(m, Outcome.responded)], rfl, rfl,
            Or.inr ⟨m, ms, Outcome.responded, [], rfl, by decide, rfl, by simp⟩⟩
      | fail s1 req1 =>
          refine ⟨[], m :: ms, _, rfl, rfl,
            Or.inr ⟨m, ms, Outcome.failed, _, rfl, by decide, rfl, ?_⟩⟩
          rw [runChain_error_skips]
          exact trace_mem_chain exec es Mode.error s1 req1

/-- An ordinary middleware that occurs once in a chain executes only after every ordinary
middleware ahead of it has passed control on. -/
theorem reach {σ : Type} (exec : Mw → σ → Request → Step σ) (es : List Stage)
    (hes : ∀ st ∈ es, st.onError = true) (xs cs : List Mw) (h : Mw) (hx : h ∉ xs)
    (hc : h ∉ cs) (he : h ∉ es.map Stage.mw) (s : σ) (req : Request) (k : Outcome)
    (hk : (h, k) ∈
      (runChain exec ((xs ++ h :: cs).map ordinary ++ es) Mode.normal s req).trace) :
    ∃ post, (runChain exec ((xs ++ h :: cs).map ordinary ++ es) Mode.normal s req).trace =
      xs.map (fun m => (m, Outcome.passed)) ++ (h, k) :: post := by
  obtain ⟨ms1, ms2, tl, hsplit, htr, htl⟩ := trace_shape exec es hes (xs ++ h :: cs) s req
  rw [htr] at hk ⊢
  -- an event of `h` in the tail is the head of the tail
  have tail_case : (h, k) ∈ tl → ∃ rest te, ms2 = h :: rest ∧ tl = (h, k) :: te := by
    intro hin
    rcases htl with rfl | ⟨m, rest, k1, te, hms2, _, rfl, hte⟩
    · simp at hin
    · rcases List.mem_cons.mp hin with heq | hin2
      · cases heq; exact ⟨rest, te, hms2, rfl⟩
      · exact absurd (hte _ hin2) he
  rcases List.append_eq_append_iff.mp hsplit with ⟨a, hxs, hms2⟩ | ⟨c, hms1, hcs⟩
  · -- `xs ++ a = ms1`... the executed prefix reaches past `h`
    cases a with
    | nil =>
        simp only [List.append_nil] at hxs
        simp only [List.nil_append] at hms2
        subst hxs
        have hin : (h, k) ∈ tl := by
          rcases List.mem_append.mp hk with h1 | h1
          · obtain ⟨m, hm, hmk⟩ := List.mem_map.mp h1
            cases hmk; exact absurd hm hx
          · exact h1
        obtain ⟨rest, te, _, rfl⟩ := tail_case hin
        exact ⟨te, rfl⟩
    | cons b a1 =>
        simp only [List.cons_append, List.cons.injEq] at hms2
        obtain ⟨rfl, hcs2⟩ := hms2
        subst hxs
        rcases List.mem_append.mp hk with h1 | h1
        · obtain ⟨m, hm, hmk⟩ := List.mem_map.mp h1
          cases hmk
          refine ⟨a1.map (fun m => (m, Outcome.passed)) ++ tl, ?_⟩
          simp
        · obtain ⟨rest, te, hms2, _⟩ := tail_case h1
          have : h ∈ cs := by rw [hcs2, hms2]; simp
          exact absurd this hc
  · -- the executed prefix stops inside `xs`
    subst hcs
    have hnot : h ∉ ms1 := fun hin => hx (by rw [hms1]; exact List.mem_append_left _ hin)
    have hin : (h, k) ∈ tl := by
      rcases List.mem_append.mp hk with h1 | h1
      · obtain ⟨m, hm, hmk⟩ := List.mem_map.mp h1
        cases hmk; exact absurd hm hnot
      · exact h1
    obtain ⟨rest, te, hms2, rfl⟩ := tail_case hin
    cases c with
    | nil =>
        simp only [List.append_nil] at hms1
        subst hms1
        exact ⟨te, rfl⟩
    | cons b c1 =>
        simp only [List.cons_append, List.cons.injEq] at hms2
        have : h ∈ xs := by rw [hms1, hms2.1]; simp
        exact absurd this hx

theorem stripSlash_eq (p k : List Char) (h : stripSlash p = k) :
    p = k ∨ p = k ++ ['/'] := by
  unfold stripSlash at h
  by_cases hl : p.getLast? = some '/'
  · rw [if_pos hl] at h
    right
    rw [← h]
    exact (List.dropLast_append_getLast? '/' hl).symm
  · rw [if_neg hl] at h
    exact Or.inl h

/-- The handler of a protected route occurs in the stack of that route only. -/
theorem handler_layer_unique :
    ∀ r ∈ protectedRoutes server, ∀ l ∈ server.layers, ∀ st ∈ l.stages,
      st.mw = Mw.handler r.2 → l = Layer.get r.1 [Mw.protect, Mw.handler r.2] := by
  decide

/-- The session verifier `protect` occurs in the stacks of the protected routes only. -/
theorem protect_layer_protected :
    ∀ l ∈ server.layers, ∀ st ∈ l.stages, st.mw = Mw.protect →
      ∃ r ∈ protectedRoutes server, l = Layer.get r.1 [Mw.protect, Mw.handler r.2] := by
  decide

/-- The chain of a GET request for the path of a protected route, with or without a
trailing slash. -/
theorem gated_chains :
    ∀ r ∈ protectedRoutes server,
      server.routeKey r.1 = server.fold r.1 ∧
        chainFor server true (server.fold r.1) = gatedChain r.2 ∧
        chainFor server true (server.fold r.1 ++ ['/']) = gatedChain r.2 := by
  decide

/-- A request accepted by a protected route has the gated chain of that route. -/
theorem chainOf_protected (req : Request) (r : String × HandlerId)
    (hr : r ∈ protectedRoutes server)
    (hacc : (Layer.get r.1 [Mw.protect, Mw.handler r.2]).accepts server (getLike req.method)
      (server.fold req.path) = true) :
    chainOf server req = gatedChain r.2 := by
  obtain ⟨hkey, h1, h2⟩ := gated_chains r hr
  simp only [Layer.accepts, Bool.and_eq_true, beq_iff_eq] at hacc
  obtain ⟨hget, hpath⟩ := hacc
  rw [hkey, server_trim] at hpath
  unfold chainOf
  rw [hget]
  rcases stripSlash_eq _ _ hpath with hp | hp
  · rw [hp]; exact h1
  · rw [hp]; exact h2

/-- The traces of a gated chain: the rate limiter, `protect` and the handler execute only
after everything ahead of them has passed control on. -/
theorem gated_trace {σ : Type} (exec : Mw → σ → Request → Step σ) (s : σ) (req : Request)
    (hid : HandlerId) :
    (∀ k, (Mw.handler hid, k) ∈ (runChain exec (gatedChain hid) Mode.normal s req).trace →
      ∃ post, (runChain exec (gatedChain hid) Mode.normal s req).trace =
        beforeLimiter.map (fun m => (m, Outcome.passed)) ++
          (Mw.limiter, Outcome.passed) ::
            (afterLimiter.map (fun m => (m, Outcome.passed)) ++
              (Mw.protect, Outcome.passed) :: (Mw.handler hid, k) :: post)) ∧
    (∀ k, (Mw.protect, k) ∈ (runChain exec (gatedChain hid) Mode.normal s req).trace →
      ∃ post, (runChain exec (gatedChain hid) Mode.normal s req).trace =
        beforeLimiter.map (fun m => (m, Outcome.passed)) ++
          (Mw.limiter, Outcome.passed) ::
            (afterLimiter.map (fun m => (m, Outcome.passed)) ++ (Mw.protect, k) :: post)) ∧
    (∀ k, (Mw.limiter, k) ∈ (runChain exec (gatedChain hid) Mode.normal s req).trace →
      ∃ post, (runChain exec (gatedChain hid) Mode.normal s req).trace =
        beforeLimiter.map (fun m => (m, Outcome.passed)) ++ (Mw.limiter, k) :: post) := by
  have hes : ∀ st ∈ [({ mw := Mw.errorHandler, onError := true } : Stage)],
      st.onError = true := by
    intro st hst
    rw [List.mem_singleton.mp hst]
  refine ⟨?_, ?_, ?_⟩
  · intro k hk
    have hshape : gatedChain hid =
        ((beforeLimiter ++ Mw.limiter :: (afterLimiter ++ [Mw.protect])) ++
            Mw.handler hid :: []).map ordinary ++
          [{ mw := Mw.errorHandler, onError := true }] := rfl
    rw [hshape] at hk ⊢
    obtain ⟨post, hpost⟩ := reach exec _ hes _ _ _
      (by simp [beforeLimiter, afterLimiter]) (by simp) (by simp) s req k hk
    exact ⟨post, by rw [hpost]; simp [beforeLimiter, afterLimiter]⟩
  · intro k hk
    have hshape : gatedChain hid =
        ((beforeLimiter ++ Mw.limiter :: afterLimiter) ++
            Mw.protect :: [Mw.handler hid]).map ordinary ++
          [{ mw := Mw.errorHandler, onError := true }] := rfl
    rw [hshape] at hk ⊢
    obtain ⟨post, hpost⟩ := reach exec _ hes _ _ _
      (by simp [beforeLimiter, afterLimiter]) (by simp) (by simp) s req k hk
    exact ⟨post, by rw [hpost]; simp [beforeLimiter, afterLimiter]⟩
  · intro k hk
    have hshape : gatedChain hid =
        (beforeLimiter ++
            Mw.limiter :: (afterLimiter ++ [Mw.protect, Mw.handler hid])).map ordinary ++
          [{ mw := Mw.errorHandler, onError := true }] := rfl
    rw [hshape] at hk ⊢
    obtain ⟨post, hpost⟩ := reach exec _ hes _ _ _
      (by simp [beforeLimiter]) (by simp [afterLimiter]) (by simp) s req k hk
    exact ⟨post, hpost⟩

/-- A request whose trace records the handler of a protected route has the gated chain of
that route. -/
theorem chainOf_of_handler_event {σ : Type} (exec : Mw → σ → Request → Step σ) (s : σ)
    (req : Request) (r : String × HandlerId) (hr : r ∈ protectedRoutes server) (k : Outcome)
    (hk : (Mw.handler r.2, k) ∈ (dispatch server exec s req).trace) :
    chainOf server req = gatedChain r.2 := by
  have hmem := trace_mem_chain exec _ _ _ _ _ hk
  obtain ⟨st, hst, hmw⟩ := List.mem_map.mp hmem
  obtain ⟨l, hl, hacc, hin⟩ := (mem_chainFor _ _ _ _).mp hst
  have := handler_layer_unique r hr l hl st hin hmw
  subst this
  exact chainOf_protected req r hr hacc

/-- A request whose trace records `protect` has the gated chain of a protected route. -/
theorem chainOf_of_protect_event {σ : Type} (exec : Mw → σ → Request → Step σ) (s : σ)
    (req : Request) (k : Outcome)
    (hk : (Mw.protect, k) ∈ (dispatch server exec s req).trace) :
    ∃ r ∈ protectedRoutes server, chainOf server req = gatedChain r.2 := by
  have hmem := trace_mem_chain exec _ _ _ _ _ hk
  obtain ⟨st, hst, hmw⟩ := List.mem_map.mp hmem
  obtain ⟨l, hl, hacc, hin⟩ := (mem_chainFor _ _ _ _).mp hst
  obtain ⟨r, hr, hlayer⟩ := protect_layer_protected l hl st hin hmw
  subst hlayer
  exact ⟨r, hr, chainOf_protected req r hr hacc⟩

/-- C1: the routes registered with `protect` are the dashboard, bar, reserve-table and team
routes and the eight venue routes.  For each of them and for every behaviour of the
middlewares: if the route's handler executes, the trace begins with the middlewares ahead
of the rate limiter, then the rate limiter passing control on, then the middlewares
between it and the routes, then `protect` passing control on, then the handler; when the
rate limiter does not pass control on, neither `protect` nor the handler executes; and
when `protect` does not pass control on, the handler does not execute. -/
theorem gateway_order {σ : Type} (exec : Mw → σ → Request → Step σ) (s : σ) (req : Request)
    (r : String × HandlerId) (hr : r ∈ protectedRoutes server) :
    protectedRoutes server =
        [("/api/dashboard", HandlerId.dashboard), ("/api/bar", HandlerId.bar),
         ("/api/reserve-table", HandlerId.reserveTable), ("/api/team", HandlerId.team),
         ("/api/brewestate", HandlerId.barPage "brewestate"),
         ("/api/boulevard", HandlerId.barPage "boulevard"),
         ("/api/kalaghoda", HandlerId.barPage "kalaghoda"),
         ("/api/mobe", HandlerId.barPage "mobe"),
         ("/api/paara", HandlerId.barPage "paara"),
         ("/api/romeo-ldh", HandlerId.barPage "romeo-ldh"),
         ("/api/luna-ldh", HandlerId.barPage "luna-ldh"),
         ("/api/baklavi-ldh", HandlerId.barPage "baklavi-ldh")] ∧
      (∀ k, (Mw.handler r.2, k) ∈ (dispatch server exec s req).trace →
        ∃ post, (dispatch server exec s req).trace =
          beforeLimiter.map (fun m => (m, Outcome.passed)) ++
            (Mw.limiter, Outcome.passed) ::
              (afterLimiter.map (fun m => (m, Outcome.passed)) ++
                (Mw.protect, Outcome.passed) :: (Mw.handler r.2, k) :: post)) ∧
      (∀ k, k ≠ Outcome.passed → (Mw.limiter, k) ∈ (dispatch server exec s req).trace →
        ∀ k1, (Mw.protect, k1) ∉ (dispatch server exec s req).trace ∧
          (Mw.handler r.2, k1) ∉ (dispatch server exec s req).trace) ∧
      (∀ k, k ≠ Outcome.passed → (Mw.protect, k) ∈ (dispatch server exec s req).trace →
        ∀ k1, (Mw.handler r.2, k1) ∉ (dispatch server exec s req).trace) := by
  refine ⟨by decide, ?_, ?_, ?_⟩
  · intro k hk
    have hchain := chainOf_of_handler_event exec s req r hr k hk
    unfold dispatch at hk ⊢
    rw [hchain] at hk ⊢
    exact (gated_trace exec s req r.2).1 k hk
  · intro k hne hlim k1
    constructor
    · intro hp
      obtain ⟨r1, _, hchain⟩ := chainOf_of_protect_event exec s req k1 hp
      unfold dispatch at hlim hp
      rw [hchain] at hlim hp
      obtain ⟨p1, e1⟩ := (gated_trace exec s req r1.2).2.1 k1 hp
      obtain ⟨p2, e2⟩ := (gated_trace exec s req r1.2).2.2 k hlim
      rw [e1] at e2
      have hcons := List.append_cancel_left e2
      simp only [List.cons.injEq, Prod.mk.injEq, true_and] at hcons
      exact hne hcons.1.symm
    · intro hh
      have hchain := chainOf_of_handler_event exec s req r hr k1 hh
      unfold dispatch at hlim hh
      rw [hchain] at hlim hh
      obtain ⟨p1, e1⟩ := (gated_trace exec s req r.2).1 k1 hh
      obtain ⟨p2, e2⟩ := (gated_trace exec s req r.2).2.2 k hlim
      rw [e1] at e2
      have hcons := List.append_cancel_left e2
      simp only [List.cons.injEq, Prod.mk.injEq, true_and] at hcons
      exact hne hcons.1.symm
  · intro k hne hp k1 hh
    have hchain := chainOf_of_handler_event exec s req r hr k1 hh
    unfold dispatch at hp hh
    rw [hchain] at hp hh
    obtain ⟨p1, e1⟩ := (gated_trace exec s req r.2).1 k1 hh
    obtain ⟨p2, e2⟩ := (gated_trace exec s req r.2).2.1 k hp
    rw [e1] at e2
    have hcons := List.append_cancel_left e2
    simp only [List.cons.injEq, Prod.mk.injEq, true_and] at hcons
    have hcons2 := List.append_cancel_left hcons
    simp only [List.cons.injEq, Prod.mk.injEq, true_and] at hcons2
    exact hne hcons2.1.symm

/-- A GET request for `/api/team` without a session, every imported middleware passing
control on: `protect` rejects it after the rate limiter has admitted it, and the team
handler does not execute. -/
theorem gateway_order_witness :
    ("/api/team", HandlerId.team) ∈ protectedRoutes server ∧
      (Mw.limiter, Outcome.passed) ∈
        (dispatch server (serverExec passAll) (fun _ => none) (probe "/api/team")).trace ∧
      (Mw.protect, Outcome.responded) ∈
        (dispatch server (serverExec passAll) (fun _ => none) (probe "/api/team")).trace ∧
      ∀ k1, (Mw.handler HandlerId.team, k1) ∉
        (dispatch server (serverExec passAll) (fun _ => none) (probe "/api/team")).trace :=
  ⟨by decide, by decide, by decide,
    (gateway_order (serverExec passAll) (fun _ => none) (probe "/api/team")
      ("/api/team", HandlerId.team) (by decide)).2.2.2 Outcome.responded (by decide)
      (by decide)⟩

end Clubverse
